import Mathlib

/-
Verification of the concurrent test scheduler in src/gtest.py.

The embedding has two layers:
 - a sequential event-trace model of GTestManager._run_test (lines 222-253)
   and of one claim-run-release cycle of _schedule_tests (lines 277-282);
 - a small-step interleaving model of J worker loops running
   _schedule_tests concurrently, with the lock-protected regions of the
   source modelled as single atomic steps and the environment choosing the
   interleaving, the exit codes and the moment the interrupt flag is set.
-/

namespace GTestSpec

/-- Terminal status of a test, the three string values of line 247 of
src/gtest.py. -/
inductive Status
  | passed
  | killed
  | failed
  deriving DecidableEq, Repr

/-- One test case as enqueued by get_test_list (line 308 of src/gtest.py):
the tuple (test_name, test_cmd, working_dir, retry). -/
structure Case where
  name : String
  cmd : String
  dir : String
  retry : Nat
  deriving DecidableEq, Repr

/-- Group of a test case: the prefix of its name before the first dot,
embedding the expression test_candidate[0].split('.')[0] of lines 270
and 277 of src/gtest.py. -/
def caseGroup (c : Case) : String :=
  String.mk (c.name.toList.takeWhile (fun ch => ch ≠ '.'))

/-- Numeric value of signal.SIGINT. -/
def SIGINT : Int := 2

/-- Environment of one attempt of a test: whether the INTERRUPT flag is
observed set right after the process launch (line 236 of src/gtest.py),
the exit code process.wait would return (line 240), and whether INTERRUPT
is observed set at the retry check (line 242). -/
structure AttemptEnv where
  intrAtLaunch : Bool
  exitCode : Int
  intrAtRetry : Bool
  deriving DecidableEq, Repr

/-- Return code of one attempt (lines 234-240 of src/gtest.py): if
INTERRUPT is set right after the launch, the process is sent SIGINT and
ret is -SIGINT without waiting; otherwise ret is the exit code captured by
process.wait. -/
def retCode (e : AttemptEnv) : Int :=
  if e.intrAtLaunch then -SIGINT else e.exitCode

/-- Status mapping of line 247 of src/gtest.py: Passed if ret equals 0,
else Killed if ret equals -SIGINT, else Failed. -/
def statusOf (ret : Int) : Status :=
  if ret = 0 then Status.passed
  else if ret = -SIGINT then Status.killed
  else Status.failed

/-- Observable actions of _run_test and of one cycle of _schedule_tests. -/
inductive Event
  | enqueueRunning (name : String)
  | chdir (dir : String)
  | openLog (path : String)
  | launch (cmd : String)
  | sigint
  | waited (code : Int)
  | appendRow (name : String) (status : Status)
  | dequeueRunning
  | claim (c : Case)
  | addGroup (g : String)
  | removeGroup (g : String)
  deriving DecidableEq, Repr

/-- Events of a single attempt inside _run_test (lines 225-240 of
src/gtest.py): put the name into the running_tests queue under the lock,
create and change into the working directory, open the log file
working_dir/run.log for writing, launch the command, then either send
SIGINT at once (INTERRUPT already set) or block waiting for the exit
code. -/
def attemptTrace (name cmd dir : String) (e : AttemptEnv) : List Event :=
  [Event.enqueueRunning name, Event.chdir dir,
   Event.openLog (dir ++ "/run.log"), Event.launch cmd]
    ++ (if e.intrAtLaunch then [Event.sigint] else [Event.waited e.exitCode])

/-- Event trace of _run_test (lines 222-253 of src/gtest.py), started at
attempt index k with the given retries remaining; env gives each attempt
its environment. After an attempt with return code ret: if ret is
non-zero, retries remain and INTERRUPT is not set, the same test is re-run
synchronously with one retry fewer (lines 242-244); otherwise the terminal
block appends one result row with the mapped status and pops the
running_tests queue (lines 246-253). -/
def run_test (name cmd dir : String) : Nat → Nat → (Nat → AttemptEnv) → List Event
  | 0, k, env =>
      attemptTrace name cmd dir (env k)
        ++ [Event.appendRow name (statusOf (retCode (env k))), Event.dequeueRunning]
  | r + 1, k, env =>
      if retCode (env k) ≠ 0 ∧ (env k).intrAtRetry = false then
        attemptTrace name cmd dir (env k) ++ run_test name cmd dir r (k + 1) env
      else
        attemptTrace name cmd dir (env k)
          ++ [Event.appendRow name (statusOf (retCode (env k))), Event.dequeueRunning]

/-- Events of one iteration of _schedule_tests after it obtained a
candidate (lines 277-282 of src/gtest.py): record the candidate and its
group in the local running_groups list, run the test, then remove the
group from the local list. -/
def scheduleCycle (c : Case) (env : Nat → AttemptEnv) : List Event :=
  (Event.claim c :: Event.addGroup (caseGroup c)
    :: run_test c.name c.cmd c.dir c.retry 0 env)
    ++ [Event.removeGroup (caseGroup c)]

/-- Number of attempts _run_test performs from attempt index k with the
given retries remaining. -/
def numAttempts : Nat → Nat → (Nat → AttemptEnv) → Nat
  | 0, _, _ => 1
  | r + 1, k, env =>
      if retCode (env k) ≠ 0 ∧ (env k).intrAtRetry = false then
        1 + numAttempts r (k + 1) env
      else 1

/-- Return code of the final attempt of _run_test. -/
def finalRet : Nat → Nat → (Nat → AttemptEnv) → Int
  | 0, k, env => retCode (env k)
  | r + 1, k, env =>
      if retCode (env k) ≠ 0 ∧ (env k).intrAtRetry = false then
        finalRet r (k + 1) env
      else retCode (env k)

/-- Recognizer for launch events. -/
def isLaunch : Event → Bool
  | Event.launch _ => true
  | _ => false

/-- Recognizer for result-row appends. -/
def isAppendRow : Event → Bool
  | Event.appendRow _ _ => true
  | _ => false

/-- Recognizer for group releases. -/
def isRemoveGroup : Event → Bool
  | Event.removeGroup _ => true
  | _ => false

/-- Recognizer for puts into the running_tests queue. -/
def isEnqueueRunning : Event → Bool
  | Event.enqueueRunning _ => true
  | _ => false

/-- Recognizer for gets from the running_tests queue. -/
def isDequeueRunning : Event → Bool
  | Event.dequeueRunning => true
  | _ => false

/-- Replay of the running_tests queue over an event trace: put appends at
the back (line 226 of src/gtest.py), get pops the front (line 250); every
other event leaves the queue alone. -/
def replayQueue : List Event → List String → List String
  | [], q => q
  | Event.enqueueRunning n :: es, q => replayQueue es (q ++ [n])
  | Event.dequeueRunning :: es, q => replayQueue es q.tail
  | _ :: es, q => replayQueue es q

/-- Phase of one worker inside _schedule_tests and the _run_test call it
makes: the program points between the atomic (lock-protected or local)
regions of lines 255-282 and 222-253 of src/gtest.py. -/
inductive Phase
  | top
  | scan
  | claimed (c : Case)
  | toEnqueue (c : Case)
  | toLaunch (c : Case)
  | waiting (c : Case)
  | postRun (c : Case) (ret : Int)
  | afterRun (g : String)
  | done
  deriving DecidableEq, Repr

/-- One worker: its phase and its running_groups list, which in the source
is a LOCAL variable of each call of _schedule_tests (line 256), not shared
state. -/
structure Worker where
  phase : Phase
  running_groups : List String
  deriving DecidableEq, Repr

/-- Shared state of the scheduler: the tests queue, the running_tests
queue, the results table, the finished counter, the INTERRUPT flag, the
process-wide current working directory set by os.chdir (line 229), and the
workers. -/
structure SchedState where
  tests : List Case
  running_tests : List String
  results : List (String × Status)
  finished : Nat
  interrupt : Bool
  cwd : Option String
  workers : List Worker
  deriving DecidableEq, Repr

/-- The locked scan of lines 266-272 of src/gtest.py as a function of the
tests queue and the running_groups list: the loop runs qsize times but
reads self.queue[0] on every iteration, so the candidate is always the
front element; the front is removed from the queue (and the loop left)
only when its group is not in running_groups. Returns the candidate (None
only when the queue is empty at the lock) and the queue afterwards. -/
def claimNextCode (tests : List Case) (running_groups : List String) :
    Option Case × List Case :=
  match tests with
  | [] => (none, [])
  | c :: rest =>
      if caseGroup c ∈ running_groups then (some c, c :: rest)
      else (some c, rest)

/-- Modelled from the spec, for comparison with claimNextCode only: the
claim protocol of section 4.1 in the spec's words. Scan the queue from the
front; for each case, if its group is not in the active set, remove that
case, insert its group, and return it; if the scan reaches the end, return
None with the queue and the active set unchanged. -/
def claimNextSpec : List Case → List String → Option Case × List Case × List String
  | [], active => (none, [], active)
  | c :: rest, active =>
      if caseGroup c ∈ active then
        match claimNextSpec rest active with
        | (r, q, a) => (r, c :: q, a)
      else (some c, rest, caseGroup c :: active)

/-- State with worker i replaced. -/
def setW (s : SchedState) (i : Nat) (w : Worker) : SchedState :=
  { s with workers := s.workers.set i w }

/-- One atomic step of worker w (index i in the state). The top step is
the pair of checks at lines 260-264 of src/gtest.py; the scan step is the
locked region of lines 266-272 followed by the None check of line 274; the
claimed step is lines 277-278; the toEnqueue step is the locked put of
lines 225-226; the toLaunch step is lines 228-240 up to the check of the
INTERRUPT flag right after launch; the waiting step is the return of
process.wait with exit code ret; the postRun step is the retry check of
line 242 and, when terminal, the locked block of lines 249-253; the
afterRun step is lines 281-282. -/
def stepOn (s : SchedState) (i : Nat) (ret : Int) : Worker → SchedState
  | ⟨Phase.top, rg⟩ =>
      if s.interrupt then setW s i ⟨Phase.done, rg⟩
      else if s.tests.isEmpty then setW s i ⟨Phase.done, rg⟩
      else setW s i ⟨Phase.scan, rg⟩
  | ⟨Phase.scan, rg⟩ =>
      { setW s i ⟨(claimNextCode s.tests rg).1.elim Phase.done Phase.claimed, rg⟩ with
          tests := (claimNextCode s.tests rg).2 }
  | ⟨Phase.claimed c, rg⟩ => setW s i ⟨Phase.toEnqueue c, rg ++ [caseGroup c]⟩
  | ⟨Phase.toEnqueue c, rg⟩ =>
      { setW s i ⟨Phase.toLaunch c, rg⟩ with
          running_tests := s.running_tests ++ [c.name] }
  | ⟨Phase.toLaunch c, rg⟩ =>
      { setW s i ⟨(if s.interrupt then Phase.postRun c (-SIGINT) else Phase.waiting c), rg⟩ with
          cwd := some c.dir }
  | ⟨Phase.waiting c, rg⟩ => setW s i ⟨Phase.postRun c ret, rg⟩
  | ⟨Phase.postRun c r, rg⟩ =>
      if r ≠ 0 ∧ 0 < c.retry ∧ s.interrupt = false then
        setW s i ⟨Phase.toEnqueue { c with retry := c.retry - 1 }, rg⟩
      else
        { setW s i ⟨Phase.afterRun (caseGroup c), rg⟩ with
            running_tests := s.running_tests.tail,
            finished := s.finished + 1,
            results := s.results ++ [(c.name, statusOf r)] }
  | ⟨Phase.afterRun g, rg⟩ => setW s i ⟨Phase.top, rg.erase g⟩
  | ⟨Phase.done, _⟩ => s

/-- One atomic step of the worker with index i; ret is the exit code the
environment supplies if that worker is waiting on its process. Out of
range, no step happens. -/
def workerStep (s : SchedState) (i : Nat) (ret : Int) : SchedState :=
  match s.workers[i]? with
  | none => s
  | some w => stepOn s i ret w

/-- One action of the whole system: a step of one worker, or the
environment setting the INTERRUPT flag (the KeyboardInterrupt handler of
line 324 of src/gtest.py; the flag is monotone, never cleared). -/
inductive Act
  | work (i : Nat) (ret : Int)
  | intr
  deriving DecidableEq, Repr

/-- Apply one action. -/
def applyAct (s : SchedState) : Act → SchedState
  | Act.work i ret => workerStep s i ret
  | Act.intr => { s with interrupt := true }

/-- Run a whole schedule of actions. -/
def runActs (s : SchedState) (acts : List Act) : SchedState :=
  acts.foldl applyAct s

/-- Initial state: the discovered tests queued, jobs workers each at the
top of its loop with an empty local running_groups list, nothing run yet,
INTERRUPT clear. -/
def initState (tests : List Case) (jobs : Nat) : SchedState :=
  { tests := tests, running_tests := [], results := [], finished := 0,
    interrupt := false, cwd := none,
    workers := List.replicate jobs ⟨Phase.top, []⟩ }

/-- Initial state with the INTERRUPT flag already set before any case is
claimed. -/
def interruptedInit (tests : List Case) (jobs : Nat) : SchedState :=
  { initState tests jobs with interrupt := true }

/-- Invariant for a run whose INTERRUPT flag was set before any claim:
nothing is ever claimed or run and every worker is still at the top of its
loop or already stopped. -/
def CancelledInv (tests : List Case) (s : SchedState) : Prop :=
  s.interrupt = true ∧ s.results = [] ∧ s.tests = tests
    ∧ s.running_tests = []
    ∧ ∀ w ∈ s.workers, w.phase = Phase.top ∨ w.phase = Phase.done

/-- Concrete cases and environments used by the counterexamples. -/
def caseA1 : Case := ⟨"A.t1", "cmd1", "dir1", 2⟩

/-- Second case of group A. -/
def caseA2 : Case := ⟨"A.t2", "cmd2", "dir2", 2⟩

/-- A case of group B. -/
def caseB1 : Case := ⟨"B.t1", "cmd3", "dir3", 2⟩

/-- Environment where every attempt exits 0 with no interrupt. -/
def envZero : Nat → AttemptEnv := fun _ => ⟨false, 0, false⟩

/-- Environment where every attempt exits with code -SIGINT (the process
dies from an interrupt signal of its own) while the INTERRUPT flag of the
manager is never set. -/
def envKilled : Nat → AttemptEnv := fun _ => ⟨false, -SIGINT, false⟩

/-- Environment where every attempt fails with exit code 1. -/
def envFail : Nat → AttemptEnv := fun _ => ⟨false, 1, false⟩

/-- Schedule where worker 0 runs five steps (top, scan, claimed,
toEnqueue, toLaunch) and then worker 1 runs its own steps. -/
def traceC1 : List Act :=
  List.replicate 5 (Act.work 0 0) ++ List.replicate 5 (Act.work 1 0)

/-- Prefix of traceC1 leaving worker 0 executing its case and worker 1
about to scan. -/
def traceC5 : List Act :=
  List.replicate 5 (Act.work 0 0) ++ [Act.work 1 0]

/-- The state traceC5 reaches from two workers and the queue holding the
two group-A cases: worker 0 is executing caseA1 (group A held in its local
running_groups), worker 1 is about to scan, and the queue holds only
caseA2, whose group is active on worker 0. -/
def s5 : SchedState :=
  { tests := [caseA2], running_tests := ["A.t1"], results := [],
    finished := 0, interrupt := false, cwd := some "dir1",
    workers := [⟨Phase.waiting caseA1, ["A"]⟩, ⟨Phase.scan, []⟩] }

/-- One attempt launches exactly one process. -/
lemma attemptTrace_countP_launch (n c d : String) (e : AttemptEnv) :
    (attemptTrace n c d e).countP isLaunch = 1 := by
  cases h : e.intrAtLaunch <;> simp [attemptTrace, h, isLaunch]

/-- One attempt appends no result row. -/
lemma attemptTrace_countP_appendRow (n c d : String) (e : AttemptEnv) :
    (attemptTrace n c d e).countP isAppendRow = 0 := by
  cases h : e.intrAtLaunch <;> simp [attemptTrace, h, isAppendRow]

/-- One attempt releases no group. -/
lemma attemptTrace_countP_removeGroup (n c d : String) (e : AttemptEnv) :
    (attemptTrace n c d e).countP isRemoveGroup = 0 := by
  cases h : e.intrAtLaunch <;> simp [attemptTrace, h, isRemoveGroup]

/-- One attempt puts exactly one name into running_tests. -/
lemma attemptTrace_countP_enqueue (n c d : String) (e : AttemptEnv) :
    (attemptTrace n c d e).countP isEnqueueRunning = 1 := by
  cases h : e.intrAtLaunch <;> simp [attemptTrace, h, isEnqueueRunning]

/-- One attempt pops nothing from running_tests. -/
lemma attemptTrace_countP_dequeue (n c d : String) (e : AttemptEnv) :
    (attemptTrace n c d e).countP isDequeueRunning = 0 := by
  cases h : e.intrAtLaunch <;> simp [attemptTrace, h, isDequeueRunning]

/-- A whole _run_test call appends exactly one result row, whatever the
number of retries. -/
lemma run_test_countP_appendRow (n c d : String) (env : Nat → AttemptEnv) :
    ∀ r k, (run_test n c d r k env).countP isAppendRow = 1 := by
  intro r
  induction r with
  | zero =>
      intro k
      simp [run_test, List.countP_append, List.countP_cons,
        attemptTrace_countP_appendRow, isAppendRow]
  | succ r ih =>
      intro k
      by_cases h : retCode (env k) ≠ 0 ∧ (env k).intrAtRetry = false
      · simp [run_test, h, List.countP_append, attemptTrace_countP_appendRow, ih]
      · simp [run_test, h, List.countP_append, List.countP_cons,
          attemptTrace_countP_appendRow, isAppendRow]

/-- A whole _run_test call launches one process per attempt. -/
lemma run_test_countP_launch (n c d : String) (env : Nat → AttemptEnv) :
    ∀ r k, (run_test n c d r k env).countP isLaunch = numAttempts r k env := by
  intro r
  induction r with
  | zero =>
      intro k
      simp [run_test, numAttempts, List.countP_append, List.countP_cons,
        attemptTrace_countP_launch, isLaunch]
  | succ r ih =>
      intro k
      by_cases h : retCode (env k) ≠ 0 ∧ (env k).intrAtRetry = false
      · simp [run_test, numAttempts, h, List.countP_append,
          attemptTrace_countP_launch, ih, Nat.add_comm]
      · simp [run_test, numAttempts, h, List.countP_append, List.countP_cons,
          attemptTrace_countP_launch, isLaunch]

/-- A _run_test call never releases a group: the group claim is kept
across all retries. -/
lemma run_test_countP_removeGroup (n c d : String) (env : Nat → AttemptEnv) :
    ∀ r k, (run_test n c d r k env).countP isRemoveGroup = 0 := by
  intro r
  induction r with
  | zero =>
      intro k
      simp [run_test, List.countP_append, List.countP_cons,
        attemptTrace_countP_removeGroup, isRemoveGroup]
  | succ r ih =>
      intro k
      by_cases h : retCode (env k) ≠ 0 ∧ (env k).intrAtRetry = false
      · simp [run_test, h, List.countP_append, attemptTrace_countP_removeGroup, ih]
      · simp [run_test, h, List.countP_append, List.countP_cons,
          attemptTrace_countP_removeGroup, isRemoveGroup]

/-- A _run_test call puts one name into running_tests per attempt. -/
lemma run_test_countP_enqueue (n c d : String) (env : Nat → AttemptEnv) :
    ∀ r k, (run_test n c d r k env).countP isEnqueueRunning = numAttempts r k env := by
  intro r
  induction r with
  | zero =>
      intro k
      simp [run_test, numAttempts, List.countP_append, List.countP_cons,
        attemptTrace_countP_enqueue, isEnqueueRunning]
  | succ r ih =>
      intro k
      by_cases h : retCode (env k) ≠ 0 ∧ (env k).intrAtRetry = false
      · simp [run_test, numAttempts, h, List.countP_append,
          attemptTrace_countP_enqueue, ih, Nat.add_comm]
      · simp [run_test, numAttempts, h, List.countP_append, List.countP_cons,
          attemptTrace_countP_enqueue, isEnqueueRunning]

/-- A _run_test call pops running_tests exactly once, at the terminal
attempt. -/
lemma run_test_countP_dequeue (n c d : String) (env : Nat → AttemptEnv) :
    ∀ r k, (run_test n c d r k env).countP isDequeueRunning = 1 := by
  intro r
  induction r with
  | zero =>
      intro k
      simp [run_test, List.countP_append, List.countP_cons,
        attemptTrace_countP_dequeue, isDequeueRunning]
  | succ r ih =>
      intro k
      by_cases h : retCode (env k) ≠ 0 ∧ (env k).intrAtRetry = false
      · simp [run_test, h, List.countP_append, attemptTrace_countP_dequeue, ih]
      · simp [run_test, h, List.countP_append, List.countP_cons,
          attemptTrace_countP_dequeue, isDequeueRunning]

/-- Every attempt performs at least one launch. -/
lemma numAttempts_pos (env : Nat → AttemptEnv) :
    ∀ r k, 1 ≤ numAttempts r k env := by
  intro r
  induction r with
  | zero => intro k; simp [numAttempts]
  | succ r ih =>
      intro k
      by_cases h : retCode (env k) ≠ 0 ∧ (env k).intrAtRetry = false
      · simp [numAttempts, h]
      · simp [numAttempts, h]

/-- Every log file a _run_test call opens is the one file
working_dir/run.log, overwritten on each retry. -/
lemma run_test_openLog (n c d : String) (env : Nat → AttemptEnv) :
    ∀ r k p, Event.openLog p ∈ run_test n c d r k env → p = d ++ "/run.log" := by
  have hattempt : ∀ (e : AttemptEnv) (p : String),
      Event.openLog p ∈ attemptTrace n c d e → p = d ++ "/run.log" := by
    intro e p hp
    cases h : e.intrAtLaunch <;> simp [attemptTrace, h] at hp <;> exact hp
  intro r
  induction r with
  | zero =>
      intro k p hp
      simp only [run_test, List.mem_append, List.mem_cons,
        List.not_mem_nil, or_false] at hp
      rcases hp with hp | hp | hp
      · exact hattempt _ _ hp
      · exact absurd hp (by simp)
      · exact absurd hp (by simp)
  | succ r ih =>
      intro k p hp
      by_cases h : retCode (env k) ≠ 0 ∧ (env k).intrAtRetry = false
      · rw [run_test, if_pos h] at hp
        rcases List.mem_append.mp hp with hp | hp
        · exact hattempt _ _ hp
        · exact ih (k + 1) p hp
      · rw [run_test, if_neg h] at hp
        simp only [List.mem_append, List.mem_cons, List.not_mem_nil, or_false] at hp
        rcases hp with hp | hp | hp
        · exact hattempt _ _ hp
        · exact absurd hp (by simp)
        · exact absurd hp (by simp)

/-- The trace of _run_test ends with the append of the one result row,
carrying the status mapped from the final attempt's return code, followed
by the pop of running_tests. -/
lemma run_test_terminal (n c d : String) (env : Nat → AttemptEnv) :
    ∀ r k, ∃ es, run_test n c d r k env
      = es ++ [Event.appendRow n (statusOf (finalRet r k env)), Event.dequeueRunning] := by
  intro r
  induction r with
  | zero => exact fun k => ⟨attemptTrace n c d (env k), by simp [run_test, finalRet]⟩
  | succ r ih =>
      intro k
      by_cases h : retCode (env k) ≠ 0 ∧ (env k).intrAtRetry = false
      · obtain ⟨es, he⟩ := ih (k + 1)
        exact ⟨attemptTrace n c d (env k) ++ es, by
          simp [run_test, h, he, finalRet, List.append_assoc]⟩
      · exact ⟨attemptTrace n c d (env k), by simp [run_test, h, finalRet]⟩

/-- Replaying the running_tests queue over one attempt appends the name at
the back. -/
lemma replayQueue_attempt (n c d : String) (e : AttemptEnv)
    (rest : List Event) (q : List String) :
    replayQueue (attemptTrace n c d e ++ rest) q = replayQueue rest (q ++ [n]) := by
  cases h : e.intrAtLaunch <;> simp [attemptTrace, h, replayQueue]

/-- Replaying a whole _run_test call: each attempt appends the name, the
terminal block pops one element off the front. -/
lemma replayQueue_run_test (n c d : String) (env : Nat → AttemptEnv) :
    ∀ r k q, replayQueue (run_test n c d r k env) q
      = (q ++ List.replicate (numAttempts r k env) n).tail := by
  intro r
  induction r with
  | zero =>
      intro k q
      rw [run_test, replayQueue_attempt]
      simp [replayQueue, numAttempts]
  | succ r ih =>
      intro k q
      by_cases h : retCode (env k) ≠ 0 ∧ (env k).intrAtRetry = false
      · rw [run_test, if_pos h, replayQueue_attempt, ih, numAttempts, if_pos h]
        simp [List.replicate_succ, Nat.one_add]
      · rw [run_test, if_neg h, replayQueue_attempt, numAttempts, if_neg h]
        simp [replayQueue]

/-- Tail of a replicated list. -/
lemma tail_replicate_sub (n : String) (m : Nat) :
    (List.replicate m n).tail = List.replicate (m - 1) n := by
  cases m <;> simp [List.replicate_succ]

/-- C1: the claim says a shared ActiveGroupSet keeps two workers from
executing cases of the same group at once. In the code running_groups is a
local variable of each call of _schedule_tests, so the check at line 270
never sees a group held by another worker: from the initial state with two
workers and the queue holding the two group-A cases, the schedule traceC1
reaches a state where both workers are simultaneously executing cases of
group A. -/
theorem c1_two_workers_run_same_group :
    (runActs (initState [caseA1, caseA2] 2) traceC1).workers.map Worker.phase
      = [Phase.waiting caseA1, Phase.waiting caseA2]
    ∧ caseGroup caseA1 = caseGroup caseA2
    ∧ caseA1.name ≠ caseA2.name := by
  decide

/-- C2: the claim says the locked scan walks the queue from the front and
removes the first case whose group is not active, returning None with the
queue unchanged when every case is blocked. The code reads queue[0] on
every iteration of the scan loop, so with the front case's group active it
returns the front case itself, without removing it, instead of scanning on
to the eligible second case (which the spec's algorithm, claimNextSpec,
would claim). -/
theorem c2_scan_never_advances :
    claimNextCode [caseA1, caseB1] ["A"] = (some caseA1, [caseA1, caseB1])
    ∧ claimNextSpec [caseA1, caseB1] ["A"]
        = (some caseB1, [caseA1], ["B", "A"]) := by
  decide

/-- C3 counterexample: in the cycle of a case that passes at once, the one
result-row append (index 7) happens strictly before the group release
(index 9), refuting the claim that the row is appended after the group has
been released. -/
theorem c3_row_appended_before_release :
    (scheduleCycle caseA1 envZero).countP isAppendRow = 1
    ∧ (scheduleCycle caseA1 envZero).countP isRemoveGroup = 1
    ∧ (scheduleCycle caseA1 envZero).findIdx isAppendRow
        < (scheduleCycle caseA1 envZero).findIdx isRemoveGroup := by
  decide

/-- C4 counterexample: with one retry left, no interrupt, and the process
exiting with code -SIGINT (an exit code whose mapped outcome is Killed,
not Failed), _run_test still re-runs the case: the condition of line 242
is ret not zero, not outcome Failed. -/
theorem c4_killed_outcome_still_retried :
    (run_test "A.t1" "cmd1" "dir1" 1 0 envKilled).countP isLaunch = 2
    ∧ statusOf (retCode (envKilled 0)) = Status.killed
    ∧ Status.killed ≠ Status.failed := by
  decide

/-- C5 counterexample: the state s5 is reachable; in it the queue is
non-empty and every queued case belongs to a group currently executing on
another worker, so the claim says claimNext returns None and the scanning
worker stops immediately. Instead the scanning worker claims the front
case and proceeds: its next phase is claimed caseA2, not done. -/
theorem c5_group_blocked_worker_does_not_stop :
    runActs (initState [caseA1, caseA2] 2) traceC5 = s5
    ∧ s5.tests = [caseA2]
    ∧ (s5.workers[0]?).map Worker.phase = some (Phase.waiting caseA1)
    ∧ caseGroup caseA1 = caseGroup caseA2
    ∧ ((workerStep s5 1 0).workers[1]?).map Worker.phase
        = some (Phase.claimed caseA2)
    ∧ (workerStep s5 1 0).tests = [] := by
  decide

/-- C3 (amended): for every test case that reaches a terminal state,
exactly one ResultRow is appended (retried attempts produce no
intermediate rows), and the append happens strictly before the case's
group is released: the one append lies in the cycle minus its last event,
and the last event of the cycle is the group release. -/
theorem c3_one_row_per_case (c : Case) (env : Nat → AttemptEnv) :
    (scheduleCycle c env).countP isAppendRow = 1
    ∧ (scheduleCycle c env).dropLast.countP isAppendRow = 1
    ∧ (scheduleCycle c env).getLast? = some (Event.removeGroup (caseGroup c)) := by
  refine ⟨?_, ?_, ?_⟩
  · simp [scheduleCycle, List.countP_append, List.countP_cons, isAppendRow,
      run_test_countP_appendRow]
  · rw [scheduleCycle, List.dropLast_concat]
    simp [List.countP_cons, isAppendRow, run_test_countP_appendRow]
  · rw [scheduleCycle, List.getLast?_concat]

/-- C4 (amended): a further attempt happens exactly when the return code
is non-zero (whether the mapped outcome is Failed or Killed), retries
remain and the INTERRUPT flag is not set at the retry check; with no
retries left the attempt is final; the re-run is synchronous with the
retry budget decremented; every attempt overwrites the same log file
working_dir/run.log; and no group release happens inside _run_test, so the
claim is kept across retries. -/
theorem c4_retry_on_nonzero (n c d : String) (r k : Nat) (env : Nat → AttemptEnv) :
    (1 < (run_test n c d (r + 1) k env).countP isLaunch
        ↔ retCode (env k) ≠ 0 ∧ (env k).intrAtRetry = false)
    ∧ (run_test n c d 0 k env).countP isLaunch = 1
    ∧ ((retCode (env k) ≠ 0 ∧ (env k).intrAtRetry = false) →
        run_test n c d (r + 1) k env
          = attemptTrace n c d (env k) ++ run_test n c d r (k + 1) env)
    ∧ (∀ p, Event.openLog p ∈ run_test n c d r k env → p = d ++ "/run.log")
    ∧ (run_test n c d r k env).countP isRemoveGroup = 0 := by
  refine ⟨?_, ?_, ?_, ?_, ?_⟩
  · rw [run_test_countP_launch]
    by_cases h : retCode (env k) ≠ 0 ∧ (env k).intrAtRetry = false
    · rw [numAttempts, if_pos h]
      have := numAttempts_pos env r (k + 1)
      constructor
      · intro _; exact h
      · intro _; omega
    · rw [numAttempts, if_neg h]
      constructor
      · intro hlt; omega
      · intro hc; exact absurd hc h
  · rw [run_test_countP_launch, numAttempts]
  · intro h; rw [run_test, if_pos h]
  · exact run_test_openLog n c d env r k
  · exact run_test_countP_removeGroup n c d env r k

/-- C6: the recorded status of the final attempt follows the mapping of
line 247 of src/gtest.py: Passed exactly for exit code 0, Killed exactly
for the killed-by-interrupt code -SIGINT, Failed for every other non-zero
code; and the trace of _run_test ends by appending the row carrying the
status mapped from the final attempt's return code. -/
theorem c6_outcome_mapping :
    (∀ ret : Int,
        (statusOf ret = Status.passed ↔ ret = 0)
        ∧ (statusOf ret = Status.killed ↔ ret = -SIGINT)
        ∧ (statusOf ret = Status.failed ↔ ret ≠ 0 ∧ ret ≠ -SIGINT))
    ∧ (∀ (n c d : String) (r k : Nat) (env : Nat → AttemptEnv),
        ∃ es, run_test n c d r k env
          = es ++ [Event.appendRow n (statusOf (finalRet r k env)),
                   Event.dequeueRunning]) := by
  constructor
  · intro ret
    have hne : (-SIGINT : Int) ≠ 0 := by decide
    simp only [statusOf]
    split_ifs with h0 h2 <;> simp_all
  · intro n c d r k env
    exact run_test_terminal n c d env r k

/-- C7: if the INTERRUPT flag is already set at the instant the process
has been launched, the attempt sends SIGINT at once and its return code is
the killed-by-interrupt code -SIGINT, with no wait; otherwise the attempt
blocks waiting and its return code is the process's exit code, with no
signal sent. -/
theorem c7_interrupt_at_launch (n c d : String) (e : AttemptEnv) :
    (e.intrAtLaunch = true →
        retCode e = -SIGINT
        ∧ Event.sigint ∈ attemptTrace n c d e
        ∧ ∀ x : Int, Event.waited x ∉ attemptTrace n c d e)
    ∧ (e.intrAtLaunch = false →
        retCode e = e.exitCode
        ∧ Event.waited e.exitCode ∈ attemptTrace n c d e
        ∧ Event.sigint ∉ attemptTrace n c d e) := by
  constructor <;> intro h <;>
    refine ⟨by simp [retCode, h], by simp [attemptTrace, h], ?_⟩
  · intro x; simp [attemptTrace, h]
  · simp [attemptTrace, h]

/-- C10: per _run_test call, the test's name is put into the running_tests
queue once per attempt but the queue is popped only once, at the terminal
attempt, so a case retried numAttempts - 1 times leaves numAttempts - 1
stale copies of its name in the queue. -/
theorem c10_running_tests_stale (n c d : String) (r k : Nat)
    (env : Nat → AttemptEnv) :
    (run_test n c d r k env).countP isEnqueueRunning = numAttempts r k env
    ∧ (run_test n c d r k env).countP isDequeueRunning = 1
    ∧ replayQueue (run_test n c d r k env) []
        = List.replicate (numAttempts r k env - 1) n := by
  refine ⟨run_test_countP_enqueue n c d env r k,
    run_test_countP_dequeue n c d env r k, ?_⟩
  rw [replayQueue_run_test, List.nil_append, tail_replicate_sub]

/-- A worker step is the step of the indexed worker. -/
lemma workerStep_some {s : SchedState} {i : Nat} {w : Worker} (ret : Int)
    (h : s.workers[i]? = some w) :
    workerStep s i ret = stepOn s i ret w := by
  unfold workerStep
  rw [h]

/-- C5 (amended): each worker loop stops when the INTERRUPT flag is set or
the queue is empty at the top of an iteration; the locked scan yields no
candidate exactly when the queue is empty at that instant — a non-empty
queue always yields its front case, even one whose group is active
elsewhere — and on no candidate the worker stops immediately, in one step,
leaving the queue empty as it found it; on a candidate it proceeds to run
it and, after releasing the group from its local list, loops back to the
top. -/
theorem c5_worker_loop (s : SchedState) (i : Nat) (ret : Int) (w : Worker)
    (hw : s.workers[i]? = some w) :
    (w.phase = Phase.top → s.interrupt = true →
        workerStep s i ret = setW s i { w with phase := Phase.done })
    ∧ (w.phase = Phase.top → s.interrupt = false → s.tests = [] →
        workerStep s i ret = setW s i { w with phase := Phase.done })
    ∧ (w.phase = Phase.top → s.interrupt = false → s.tests ≠ [] →
        workerStep s i ret = setW s i { w with phase := Phase.scan })
    ∧ (w.phase = Phase.scan →
        ((claimNextCode s.tests w.running_groups).1 = none ↔ s.tests = []))
    ∧ (w.phase = Phase.scan → s.tests = [] →
        workerStep s i ret
          = { setW s i { w with phase := Phase.done } with tests := [] })
    ∧ (∀ c rest, w.phase = Phase.scan → s.tests = c :: rest →
        ∃ q, workerStep s i ret
          = { setW s i { w with phase := Phase.claimed c } with tests := q })
    ∧ (∀ g, w.phase = Phase.afterRun g →
        workerStep s i ret
          = setW s i { w with phase := Phase.top,
                              running_groups := w.running_groups.erase g }) := by
  obtain ⟨ph, rg⟩ := w
  refine ⟨?_, ?_, ?_, ?_, ?_, ?_, ?_⟩
  · intro hph hint
    cases hph
    rw [workerStep_some ret hw]
    simp [stepOn, hint]
  · intro hph hint ht
    cases hph
    rw [workerStep_some ret hw]
    simp [stepOn, hint, ht]
  · intro hph hint ht
    cases hph
    rw [workerStep_some ret hw]
    simp [stepOn, hint, List.isEmpty_iff, ht]
  · intro hph
    cases s.tests with
    | nil => simp [claimNextCode]
    | cons c rest =>
        simp only [claimNextCode]
        split <;> simp
  · intro hph ht
    cases hph
    rw [workerStep_some ret hw]
    simp [stepOn, ht, claimNextCode]
  · intro c rest hph ht
    cases hph
    rw [workerStep_some ret hw]
    refine ⟨(claimNextCode s.tests rg).2, ?_⟩
    simp only [stepOn, ht, claimNextCode]
    split <;> simp
  · intro g hph
    cases hph
    rw [workerStep_some ret hw]
    simp [stepOn]

/-- Witness for the worker-loop theorem at the concrete reachable state
s5: worker 1 is scanning, the scan of the non-empty queue yields a
candidate, and the worker moves to the claimed phase. -/
theorem c5_worker_loop_witness :
    ((claimNextCode s5.tests ([] : List String)).1 = none ↔ s5.tests = [])
    ∧ ∃ q, workerStep s5 1 0
        = { setW s5 1 ⟨Phase.claimed caseA2, []⟩ with tests := q } := by
  have h := c5_worker_loop s5 1 0 ⟨Phase.scan, []⟩ rfl
  exact ⟨h.2.2.2.1 rfl, h.2.2.2.2.2.1 caseA2 [] rfl rfl⟩

/-- A step of any action preserves the cancelled-before-any-claim
invariant. -/
lemma cancelledInv_applyAct (tests : List Case) (s : SchedState) (a : Act)
    (h : CancelledInv tests s) : CancelledInv tests (applyAct s a) := by
  obtain ⟨hi, hr, ht, hq, hwk⟩ := h
  cases a with
  | intr => exact ⟨rfl, hr, ht, hq, hwk⟩
  | work i ret =>
      show CancelledInv tests (workerStep s i ret)
      cases hwi : s.workers[i]? with
      | none => rw [workerStep, hwi]; exact ⟨hi, hr, ht, hq, hwk⟩
      | some w =>
          rw [workerStep_some ret hwi]
          obtain ⟨ph, rg⟩ := w
          have hmem : (⟨ph, rg⟩ : Worker) ∈ s.workers := List.getElem?_mem hwi
          rcases hwk _ hmem with hph | hph <;> cases hph
          · rw [stepOn, if_pos hi]
            refine ⟨hi, hr, ht, hq, ?_⟩
            intro w' hw'
            rcases List.mem_or_eq_of_mem_set hw' with hw' | hw'
            · exact hwk w' hw'
            · right; rw [hw']
          · exact ⟨hi, hr, ht, hq, hwk⟩

/-- The invariant holds along any whole schedule. -/
lemma cancelledInv_runActs (tests : List Case) :
    ∀ (acts : List Act) (s : SchedState),
      CancelledInv tests s → CancelledInv tests (runActs s acts) := by
  intro acts
  induction acts with
  | nil => exact fun s h => h
  | cons a acts ih =>
      intro s h
      exact ih (applyAct s a) (cancelledInv_applyAct tests s a h)

/-- C8: if the INTERRUPT flag is set before any case is claimed, then
under every schedule of worker steps and further interrupt signals, every
worker goes from the top of its loop straight to done, nothing is claimed
from the queue, nothing runs, and the result table stays empty. -/
theorem c8_interrupt_before_any_claim (tests : List Case) (jobs : Nat)
    (acts : List Act) :
    (runActs (interruptedInit tests jobs) acts).results = []
    ∧ (runActs (interruptedInit tests jobs) acts).tests = tests
    ∧ (runActs (interruptedInit tests jobs) acts).running_tests = []
    ∧ ∀ w ∈ (runActs (interruptedInit tests jobs) acts).workers,
        w.phase = Phase.top ∨ w.phase = Phase.done := by
  have hinit : CancelledInv tests (interruptedInit tests jobs) := by
    refine ⟨rfl, rfl, rfl, rfl, ?_⟩
    intro w hw
    left
    rw [List.eq_of_mem_replicate hw]
  have h := cancelledInv_runActs tests acts (interruptedInit tests jobs) hinit
  exact ⟨h.2.1, h.2.2.1, h.2.2.2.1, h.2.2.2.2⟩

/-- C9: running a case mutates the process-wide working directory: a
worker step changes the shared cwd only at the launch step of some case,
setting it to that case's directory, and no step ever restores it; so
after worker 0 has launched caseA1 and worker 1 then launches caseB1,
the global cwd points at caseB1's directory while caseA1 is still
executing. -/
theorem c9_chdir_is_global :
    (∀ (s : SchedState) (i : Nat) (ret : Int),
        (workerStep s i ret).cwd = s.cwd
        ∨ ∃ c, (s.workers[i]?).map Worker.phase = some (Phase.toLaunch c)
            ∧ (workerStep s i ret).cwd = some c.dir)
    ∧ (runActs (initState [caseA1, caseB1] 2) traceC1).cwd = some caseB1.dir
    ∧ ((runActs (initState [caseA1, caseB1] 2) traceC1).workers[0]?).map
        Worker.phase = some (Phase.waiting caseA1)
    ∧ caseA1.dir ≠ caseB1.dir := by
  refine ⟨?_, by decide, by decide, by decide⟩
  intro s i ret
  cases hwi : s.workers[i]? with
  | none => left; rw [workerStep, hwi]
  | some w =>
      rw [workerStep_some ret hwi]
      obtain ⟨ph, rg⟩ := w
      cases ph with
      | top =>
          left
          rw [stepOn]
          split
          · rfl
          · split <;> rfl
      | scan => left; rfl
      | claimed c => left; rfl
      | toEnqueue c => left; rfl
      | toLaunch c =>
          right
          exact ⟨c, by simp [hwi], rfl⟩
      | waiting c => left; rfl
      | postRun c r => left; rw [stepOn]; split <;> rfl
      | afterRun g => left; rfl
      | done => left; rfl

end GTestSpec

